import Mathlib

/-!
Shallow embedding of the `vm-dispatch-compare` bytecode VM (src/lib.rs).

The VM executes a 7-opcode instruction set over an operand stack with two
dispatch strategies:
  * `switch_based` runs the raw instruction sequence through a central loop
    that decodes the tag and calls each opcode's standalone handler
    (`execute_nodispatch`);
  * `computed_goto` runs the compiled form (`Opcode.compile` applied to each
    instruction), where each compiled instruction carries its own handler and
    each chained handler (`execute`) tail-dispatches into the next one.

Modelling conventions:
  * `u32` values are `Nat`; `wrapping_add`/`wrapping_mul` reduce mod 2^32.
  * The operand stack is a `List Nat` whose head is the top of the stack
    (Rust pushes/pops at the `SmallVec`'s end).
  * `assert!(…, "expected operand")` failures are modelled by
    `Except.error "expected operand"` in handlers and by the
    `Outcome.assertFail` result of a run.
  * The unchecked (`get_unchecked`) instruction fetch is modelled by `[·]?`;
    an out-of-bounds fetch, undefined behavior in the source, is the
    `Outcome.oob` result.
  * Rust's `dispatch!` macro tail-calls may not terminate, so runs take a
    fuel argument; exhausting it gives `Outcome.outOfFuel`, a model artifact.
  * The source's `computed_goto`/`switch_based` return only
    `ControlFlow<Exit>` and drop the context; here a normal halt additionally
    records the final `VmContext` so that final stack contents are observable.
-/

/-- `SystemError` (src/lib.rs line 222): empty payload of `Exit::Error`. -/
structure SystemError where
deriving DecidableEq, Repr

/-- `Exit` (src/lib.rs lines 224-227): terminal outcome of a run. -/
inductive Exit where
  | stop
  | error (err : SystemError)
deriving DecidableEq, Repr

/-- `ControlFlow<Exit>` as used by handlers: continue to the next
instruction, or break with a terminal `Exit`. -/
inductive CFlow where
  | cont
  | brk (e : Exit)
deriving DecidableEq, Repr

/-- `If` (src/lib.rs lines 115-121): payload of the conditional branch,
absolute 0-based jump targets. -/
structure If where
  if_true : Nat
  if_false : Nat
deriving DecidableEq, Repr

/-- `Inst` (src/lib.rs lines 147-156): the raw (pre-compilation)
instruction sum type. -/
inductive Inst where
  | begin
  | nop
  | stop
  | push (v : Nat)
  | ifOp (i : If)
  | add
  | mul
deriving DecidableEq, Repr

/-- The `Opcode` union (src/lib.rs lines 163-171) together with the handler
function pointer of `CompiledInst` acts as a discriminated payload: the
stored handler determines which union field is live.  The shallow embedding
therefore represents the pair as a tagged variant. -/
inductive OpcodeU where
  | begin
  | nop
  | stop
  | push (v : Nat)
  | ifOp (i : If)
  | add
  | mul
deriving DecidableEq, Repr

/-- `CompiledInst` (src/lib.rs lines 158-161): opcode payload plus its
handler; the handler pointer is subsumed in the `OpcodeU` tag. -/
structure CompiledInst where
  opcode : OpcodeU
deriving DecidableEq, Repr

/-- `VmContext` (src/lib.rs lines 229-234): instruction pointer, borrowed
compiled code, and the operand stack (head of the list is the top). -/
structure VmContext where
  ip : Nat
  code : List CompiledInst
  stack : List Nat
deriving DecidableEq, Repr

/-- `u32::wrapping_add` on `Nat` representatives. -/
def wrapping_add (a b : Nat) : Nat := (a + b) % 2 ^ 32

/-- `u32::wrapping_mul` on `Nat` representatives. -/
def wrapping_mul (a b : Nat) : Nat := (a * b) % 2 ^ 32

/-- `Begin::execute_nodispatch` (src/lib.rs lines 27-29). -/
def Begin.execute_nodispatch (context : VmContext) :
    Except String (CFlow × VmContext) :=
  .ok (.cont, context)

/-- `Nop::execute_nodispatch` (src/lib.rs lines 40-42). -/
def Nop.execute_nodispatch (context : VmContext) :
    Except String (CFlow × VmContext) :=
  .ok (.cont, context)

/-- `Stop::execute_nodispatch` (src/lib.rs lines 53-55): breaks with
`Exit::Stop`, context untouched. -/
def Stop.execute_nodispatch (context : VmContext) :
    Except String (CFlow × VmContext) :=
  .ok (.brk .stop, context)

/-- `Push::execute_nodispatch` (src/lib.rs lines 67-70). -/
def Push.execute_nodispatch (v : Nat) (context : VmContext) :
    Except String (CFlow × VmContext) :=
  .ok (.cont, { context with stack := v :: context.stack })

/-- `Add::execute_nodispatch` (src/lib.rs lines 85-91): the
`assert!(stack.len() > 1, "expected operand")` guard is exactly the failure
of the two-element pattern; `b` is popped first, then `a`, and
`a.wrapping_add(b)` is pushed. -/
def Add.execute_nodispatch (context : VmContext) :
    Except String (CFlow × VmContext) :=
  match context.stack with
  | b :: a :: rest =>
    .ok (.cont, { context with stack := wrapping_add a b :: rest })
  | _ => .error "expected operand"

/-- `Mul::execute_nodispatch` (src/lib.rs lines 106-112). -/
def Mul.execute_nodispatch (context : VmContext) :
    Except String (CFlow × VmContext) :=
  match context.stack with
  | b :: a :: rest =>
    .ok (.cont, { context with stack := wrapping_mul a b :: rest })
  | _ => .error "expected operand"

/-- `If::execute_nodispatch` (src/lib.rs lines 135-144): the
`assert!(!stack.is_empty(), "expected operand")` guard is the failure of the
cons pattern; pops the condition, zero goes to `if_false`, nonzero to
`if_true`, with no bounds check on the target. -/
def If.execute_nodispatch (i : If) (context : VmContext) :
    Except String (CFlow × VmContext) :=
  match context.stack with
  | cond :: rest =>
    .ok (.cont,
      { context with
        ip := if cond = 0 then i.if_false else i.if_true,
        stack := rest })
  | _ => .error "expected operand"

/-- The tag match of the switch loop body (src/lib.rs lines 264-272):
decode `Inst` and run the matching standalone handler. -/
def stepInst (inst : Inst) (context : VmContext) :
    Except String (CFlow × VmContext) :=
  match inst with
  | .begin => Begin.execute_nodispatch context
  | .nop => Nop.execute_nodispatch context
  | .stop => Stop.execute_nodispatch context
  | .push v => Push.execute_nodispatch v context
  | .add => Add.execute_nodispatch context
  | .mul => Mul.execute_nodispatch context
  | .ifOp i => If.execute_nodispatch i context

/-- Result of a whole run.  `halt` is a handler returning
`ControlFlow::Break` (recording the context at that moment); `assertFail` is
a fatal `assert!` precondition violation; `oob` is the undefined behavior of
an out-of-bounds `get_unchecked` fetch; `outOfFuel` is the fuel artifact. -/
inductive Outcome where
  | halt (e : Exit) (ctx : VmContext)
  | assertFail (msg : String)
  | oob
  | outOfFuel
deriving DecidableEq, Repr

/-- Observable part of an `Outcome`: everything except the (immutable) code
field carried inside the final context. -/
inductive Obs where
  | halt (e : Exit) (ip : Nat) (stack : List Nat)
  | assertFail (msg : String)
  | oob
  | outOfFuel
deriving DecidableEq, Repr

/-- Project an `Outcome` to its observable part. -/
def Outcome.proj : Outcome → Obs
  | .halt e ctx => .halt e ctx.ip ctx.stack
  | .assertFail msg => .assertFail msg
  | .oob => .oob
  | .outOfFuel => .outOfFuel

/-- The chained (threaded-dispatch) handlers of `Op::execute`
(src/lib.rs lines 23-25, 36-38, 49-51, 62-65, 77-83, 98-104, 124-133),
parameterized by the `dispatch!` continuation: each handler performs its
effect and then tail-dispatches, except `Stop`, which breaks immediately. -/
def executeChained (dispatch : VmContext → Outcome) :
    OpcodeU → VmContext → Outcome
  | .begin, context => dispatch context
  | .nop, context => dispatch context
  | .stop, context => .halt .stop context
  | .push v, context => dispatch { context with stack := v :: context.stack }
  | .add, context =>
    match context.stack with
    | b :: a :: rest =>
      dispatch { context with stack := wrapping_add a b :: rest }
    | _ => .assertFail "expected operand"
  | .mul, context =>
    match context.stack with
    | b :: a :: rest =>
      dispatch { context with stack := wrapping_mul a b :: rest }
    | _ => .assertFail "expected operand"
  | .ifOp i, context =>
    match context.stack with
    | cond :: rest =>
      dispatch
        { context with
          ip := if cond = 0 then i.if_false else i.if_true,
          stack := rest }
    | _ => .assertFail "expected operand"

/-- The `dispatch!` macro (src/lib.rs lines 5-11): fetch the compiled
instruction at `ip` (unchecked in the source), advance `ip`, and invoke the
instruction's own handler; fuel bounds the tail-call chain. -/
def dispatchC (fuel : Nat) (ctx : VmContext) : Outcome :=
  match fuel with
  | 0 => .outOfFuel
  | n + 1 =>
    match ctx.code[ctx.ip]? with
    | none => .oob
    | some inst =>
      executeChained (dispatchC n) inst.opcode { ctx with ip := ctx.ip + 1 }

/-- `Opcode::compile` (src/lib.rs lines 185-216): pure total mapping from a
raw instruction to its compiled form. -/
def Opcode.compile : Inst → CompiledInst
  | .begin => ⟨.begin⟩
  | .nop => ⟨.nop⟩
  | .stop => ⟨.stop⟩
  | .push v => ⟨.push v⟩
  | .ifOp i => ⟨.ifOp i⟩
  | .add => ⟨.add⟩
  | .mul => ⟨.mul⟩

/-- Compilation of a whole program, as done by the benches:
`program.into_iter().map(Opcode::compile)`. -/
def compileProgram (code : List Inst) : List CompiledInst :=
  code.map Opcode.compile

/-- `computed_goto` (src/lib.rs lines 236-248): fresh context with `ip = 0`,
the compiled code, an empty stack, then one initial `dispatch!`. -/
def computed_goto (code : List CompiledInst) (fuel : Nat) : Outcome :=
  dispatchC fuel { ip := 0, code := code, stack := [] }

/-- The switch dispatch loop body (src/lib.rs lines 261-273): fetch the raw
instruction at `ip` (unchecked in the source), advance `ip`, run the
standalone handler, and continue on `Continue` or return on `Break`. -/
def switchLoop (code : List Inst) (fuel : Nat) (ctx : VmContext) : Outcome :=
  match fuel with
  | 0 => .outOfFuel
  | n + 1 =>
    match code[ctx.ip]? with
    | none => .oob
    | some inst =>
      match stepInst inst { ctx with ip := ctx.ip + 1 } with
      | .error msg => .assertFail msg
      | .ok (.brk e, ctx') => .halt e ctx'
      | .ok (.cont, ctx') => switchLoop code n ctx'

/-- `switch_based` (src/lib.rs lines 250-274): fresh context with `ip = 0`,
a defaulted (empty) compiled-code field, an empty stack, then the loop. -/
def switch_based (code : List Inst) (fuel : Nat) : Outcome :=
  switchLoop code fuel { ip := 0, code := [], stack := [] }

/-- The sample program of the benches
(src/benches/computed_goto.rs lines 7-18). -/
def sampleProgram : List Inst :=
  [.begin, .push 1, .ifOp ⟨3, 4⟩, .push 2, .push 0, .add, .stop]

/-- Two instructions are interchangeable when they are equal or both drawn
from the pair `Begin`/`Nop`. -/
def instEquiv (a b : Inst) : Prop :=
  a = b ∨ ((a = .begin ∨ a = .nop) ∧ (b = .begin ∨ b = .nop))

/-- One-step unfolding of the switch loop at positive fuel. -/
theorem switchLoop_succ (code : List Inst) (n ip : Nat)
    (aux : List CompiledInst) (st : List Nat) :
    switchLoop code (n + 1) ⟨ip, aux, st⟩ =
      match code[ip]? with
      | none => .oob
      | some inst =>
        match stepInst inst ⟨ip + 1, aux, st⟩ with
        | .error msg => .assertFail msg
        | .ok (.brk e, ctx') => .halt e ctx'
        | .ok (.cont, ctx') => switchLoop code n ctx' := rfl

/-- One-step unfolding of threaded dispatch at positive fuel. -/
theorem dispatchC_succ (n ip : Nat) (cc : List CompiledInst)
    (st : List Nat) :
    dispatchC (n + 1) ⟨ip, cc, st⟩ =
      match cc[ip]? with
      | none => .oob
      | some inst =>
        executeChained (dispatchC n) inst.opcode ⟨ip + 1, cc, st⟩ := rfl

/-- Core simulation: with equal fuel, ip and stack, the switch loop on the
raw program and threaded dispatch on its compilation produce observably
equal outcomes, for every program. -/
theorem loops_agree (n : Nat) :
    ∀ (code : List Inst) (aux : List CompiledInst) (ip : Nat)
      (st : List Nat),
    (switchLoop code n ⟨ip, aux, st⟩).proj =
      (dispatchC n ⟨ip, compileProgram code, st⟩).proj := by
  induction n with
  | zero => intro code aux ip st; rfl
  | succ n ih =>
    intro code aux ip st
    rw [switchLoop_succ, dispatchC_succ,
      show (compileProgram code)[ip]? = (code[ip]?).map Opcode.compile from
        List.getElem?_map Opcode.compile code ip]
    cases h : code[ip]? with
    | none => rfl
    | some i =>
      cases i with
      | begin => exact ih code aux (ip + 1) st
      | nop => exact ih code aux (ip + 1) st
      | stop => rfl
      | push v => exact ih code aux (ip + 1) (v :: st)
      | add =>
        cases st with
        | nil => rfl
        | cons b t =>
          cases t with
          | nil => rfl
          | cons a rest => exact ih code aux (ip + 1) (wrapping_add a b :: rest)
      | mul =>
        cases st with
        | nil => rfl
        | cons b t =>
          cases t with
          | nil => rfl
          | cons a rest => exact ih code aux (ip + 1) (wrapping_mul a b :: rest)
      | ifOp i =>
        cases st with
        | nil => rfl
        | cons c rest =>
          exact ih code aux (if c = 0 then i.if_false else i.if_true) rest

/-- C2: with at least two stack values, `a` pushed before `b` (so `b` on
top, i.e. the stack reads `b :: a :: rest`), `Add` pops `b` then `a` and
replaces them with `(a + b) mod 2^32`, `Mul` likewise with
`(a * b) mod 2^32`; in particular pushing `4294967295` then `1` and
executing `Add` leaves `0` on top of the stack. -/
theorem add_mul_wrap_mod (ip : Nat) (cc : List CompiledInst) (a b : Nat)
    (rest : List Nat) :
    Add.execute_nodispatch ⟨ip, cc, b :: a :: rest⟩ =
      .ok (.cont, ⟨ip, cc, (a + b) % 2 ^ 32 :: rest⟩) ∧
    Mul.execute_nodispatch ⟨ip, cc, b :: a :: rest⟩ =
      .ok (.cont, ⟨ip, cc, (a * b) % 2 ^ 32 :: rest⟩) ∧
    Add.execute_nodispatch ⟨ip, cc, 1 :: 4294967295 :: rest⟩ =
      .ok (.cont, ⟨ip, cc, 0 :: rest⟩) := by
  refine ⟨rfl, rfl, ?_⟩
  simp [Add.execute_nodispatch, wrapping_add]

/-- C3: with a non-empty stack `c :: rest`, `If` pops exactly the condition
`c` and sets `ip` to `if_false` when `c = 0` and to `if_true` otherwise
(including `1` and `0xFFFFFFFF`); the targets `t`, `f` are arbitrary — no
bounds check against the code is performed. -/
theorem if_pops_cond_and_branches (ip : Nat) (cc : List CompiledInst)
    (t f c : Nat) (rest : List Nat) :
    If.execute_nodispatch ⟨t, f⟩ ⟨ip, cc, c :: rest⟩ =
      .ok (.cont, ⟨if c = 0 then f else t, cc, rest⟩) ∧
    If.execute_nodispatch ⟨t, f⟩ ⟨ip, cc, 0 :: rest⟩ =
      .ok (.cont, ⟨f, cc, rest⟩) ∧
    If.execute_nodispatch ⟨t, f⟩ ⟨ip, cc, 1 :: rest⟩ =
      .ok (.cont, ⟨t, cc, rest⟩) ∧
    If.execute_nodispatch ⟨t, f⟩ ⟨ip, cc, 4294967295 :: rest⟩ =
      .ok (.cont, ⟨t, cc, rest⟩) := by
  refine ⟨rfl, ?_, ?_, ?_⟩ <;> simp [If.execute_nodispatch]

/-- C6: the sample bench program, run from a fresh context under either
dispatch strategy, terminates with outcome `Stop` and final stack exactly
`[2]` (and final `ip = 7`, one past the `Stop` at index 6). -/
theorem sample_program_runs :
    switch_based sampleProgram 20 =
      .halt .stop { ip := 7, code := [], stack := [2] } ∧
    computed_goto (compileProgram sampleProgram) 20 =
      .halt .stop
        { ip := 7, code := compileProgram sampleProgram, stack := [2] } := by
  constructor <;> rfl

/-- C7: for every opcode, the chained handler used by threaded dispatch
performs exactly the update of the standalone handler
(`execute_nodispatch`) and then dispatches at the resulting `ip`
(`dispatchC n`), breaking only when the standalone form breaks; `Stop`'s
chained handler breaks with `Exit.stop` leaving the context untouched. -/
theorem chained_is_standalone_then_dispatch (n : Nat) (i : Inst)
    (ctx : VmContext) :
    executeChained (dispatchC n) (Opcode.compile i).opcode ctx =
      (match stepInst i ctx with
       | .error msg => .assertFail msg
       | .ok (.brk e, ctx') => .halt e ctx'
       | .ok (.cont, ctx') => dispatchC n ctx') ∧
    executeChained (dispatchC n) .stop ctx = .halt .stop ctx := by
  obtain ⟨ip, cc, st⟩ := ctx
  refine ⟨?_, rfl⟩
  cases i with
  | begin => rfl
  | nop => rfl
  | stop => rfl
  | push v => rfl
  | add =>
    cases st with
    | nil => rfl
    | cons b t =>
      cases t with
      | nil => rfl
      | cons a rest => rfl
  | mul =>
    cases st with
    | nil => rfl
    | cons b t =>
      cases t with
      | nil => rfl
      | cons a rest => rfl
  | ifOp i =>
    cases st with
    | nil => rfl
    | cons c rest => rfl

/-- C10: each single step touches only the top of the stack: `Push`
appends one value above the unchanged pre-stack (depth +1), `Add`/`Mul`
replace the top two values leaving everything below (`rest`) unchanged
(depth -1), `If` pops only the condition leaving `rest` unchanged
(depth -1), and `Begin`/`Nop`/`Stop` leave the stack unchanged (depth 0). -/
theorem step_touches_only_stack_top (ip : Nat) (cc : List CompiledInst)
    (st : List Nat) (v a b c t f : Nat) (rest : List Nat) :
    stepInst (.push v) ⟨ip, cc, st⟩ = .ok (.cont, ⟨ip, cc, v :: st⟩) ∧
    (v :: st).length = st.length + 1 ∧
    (∃ r, stepInst .add ⟨ip, cc, b :: a :: rest⟩ =
        .ok (.cont, ⟨ip, cc, r :: rest⟩) ∧
      (r :: rest).length + 1 = (b :: a :: rest).length) ∧
    (∃ r, stepInst .mul ⟨ip, cc, b :: a :: rest⟩ =
        .ok (.cont, ⟨ip, cc, r :: rest⟩) ∧
      (r :: rest).length + 1 = (b :: a :: rest).length) ∧
    (∃ ip2, stepInst (.ifOp ⟨t, f⟩) ⟨ip, cc, c :: rest⟩ =
        .ok (.cont, ⟨ip2, cc, rest⟩) ∧
      rest.length + 1 = (c :: rest).length) ∧
    stepInst .begin ⟨ip, cc, st⟩ = .ok (.cont, ⟨ip, cc, st⟩) ∧
    stepInst .nop ⟨ip, cc, st⟩ = .ok (.cont, ⟨ip, cc, st⟩) ∧
    stepInst .stop ⟨ip, cc, st⟩ = .ok (.brk .stop, ⟨ip, cc, st⟩) := by
  exact ⟨rfl, rfl, ⟨wrapping_add a b, rfl, rfl⟩, ⟨wrapping_mul a b, rfl, rfl⟩,
    ⟨if c = 0 then f else t, rfl, rfl⟩, rfl, rfl, rfl⟩

/-- C1: for every program, running `switch_based` on the raw instruction
sequence and `computed_goto` on its compilation (`Opcode.compile` mapped
over the instructions) with the same fuel produce observably equal results:
the same terminal outcome kind and exit, the same final `ip`, and
bit-identical final stack contents in their execution contexts.  This holds
unconditionally, hence in particular for every well-formed program (where
both runs halt normally). -/
theorem switch_computed_goto_equivalent (code : List Inst) (n : Nat) :
    (switch_based code n).proj = (computed_goto (compileProgram code) n).proj :=
  loops_agree n code [] 0 []

/-- A threaded-dispatch run that halts does so with `Exit.stop` and a final
context whose code field is unchanged. -/
theorem dispatchC_halt_inv (n : Nat) :
    ∀ (ctx : VmContext) (e : Exit) (ctx' : VmContext),
    dispatchC n ctx = .halt e ctx' → e = .stop ∧ ctx'.code = ctx.code := by
  induction n with
  | zero =>
    intro ctx e ctx' h
    simp [dispatchC] at h
  | succ n ih =>
    intro ctx e ctx' h
    obtain ⟨ip, cc, st⟩ := ctx
    rw [dispatchC_succ] at h
    cases hf : cc[ip]? with
    | none => rw [hf] at h; simp at h
    | some ci =>
      rw [hf] at h
      obtain ⟨op⟩ := ci
      cases op with
      | begin => exact ih ⟨ip + 1, cc, st⟩ e ctx' h
      | nop => exact ih ⟨ip + 1, cc, st⟩ e ctx' h
      | stop =>
        simp only [executeChained] at h
        injection h with h1 h2
        exact ⟨h1.symm, by rw [← h2]⟩
      | push v => exact ih ⟨ip + 1, cc, v :: st⟩ e ctx' h
      | add =>
        cases st with
        | nil => simp [executeChained] at h
        | cons b t =>
          cases t with
          | nil => simp [executeChained] at h
          | cons a rest =>
            exact ih ⟨ip + 1, cc, wrapping_add a b :: rest⟩ e ctx' h
      | mul =>
        cases st with
        | nil => simp [executeChained] at h
        | cons b t =>
          cases t with
          | nil => simp [executeChained] at h
          | cons a rest =>
            exact ih ⟨ip + 1, cc, wrapping_mul a b :: rest⟩ e ctx' h
      | ifOp i =>
        cases st with
        | nil => simp [executeChained] at h
        | cons c rest =>
          exact ih ⟨if c = 0 then i.if_false else i.if_true, cc, rest⟩ e ctx' h

/-- An outcome whose observable part is a halt is a halt. -/
theorem proj_halt_inv (o : Outcome) (e : Exit) (i : Nat) (s : List Nat)
    (h : o.proj = .halt e i s) :
    ∃ ctx, o = .halt e ctx ∧ ctx.ip = i ∧ ctx.stack = s := by
  cases o with
  | halt e2 ctx =>
    simp only [Outcome.proj] at h
    injection h with h1 h2 h3
    exact ⟨ctx, by rw [h1], h2, h3⟩
  | assertFail m => simp [Outcome.proj] at h
  | oob => simp [Outcome.proj] at h
  | outOfFuel => simp [Outcome.proj] at h

/-- C5: whenever either entry point returns at all (halts within its fuel),
the returned terminal outcome is `Break(Exit::Stop)`: the `Exit.error`
variant, though present in the type, is never produced by any handler, and
only `Stop` terminates execution. -/
theorem runs_return_only_stop (code : List Inst) (cc : List CompiledInst)
    (n m : Nat) (e e' : Exit) (s s' : VmContext)
    (hs : switch_based code n = .halt e s)
    (hc : computed_goto cc m = .halt e' s') :
    e = .stop ∧ e' = .stop := by
  refine ⟨?_, (dispatchC_halt_inv m ⟨0, cc, []⟩ e' s' hc).1⟩
  have hp := loops_agree n code [] 0 []
  rw [show switchLoop code n ⟨0, [], []⟩ = switch_based code n from rfl,
    hs] at hp
  obtain ⟨ctx2, hd, hip, hst⟩ :=
    proj_halt_inv (dispatchC n ⟨0, compileProgram code, []⟩) e s.ip s.stack
      hp.symm
  exact (dispatchC_halt_inv n ⟨0, compileProgram code, []⟩ e ctx2 hd).1

/-- Witness for `runs_return_only_stop` on the one-instruction program
`[Stop]` with fuel 1 on both paths. -/
theorem runs_return_only_stop_witness :
    Exit.stop = Exit.stop ∧ Exit.stop = Exit.stop :=
  runs_return_only_stop [.stop] (compileProgram [.stop]) 1 1 .stop .stop
    ⟨1, [], []⟩ ⟨1, compileProgram [.stop], []⟩ rfl rfl

/-- A standalone handler that continues or breaks returns a context with an
unchanged code field. -/
theorem stepInst_code_eq (i : Inst) (ctx : VmContext) (fl : CFlow)
    (ctx' : VmContext) (h : stepInst i ctx = .ok (fl, ctx')) :
    ctx'.code = ctx.code := by
  obtain ⟨ip, cc, st⟩ := ctx
  cases i with
  | begin =>
    simp only [stepInst, Begin.execute_nodispatch, Except.ok.injEq,
      Prod.mk.injEq] at h
    rw [← h.2]
  | nop =>
    simp only [stepInst, Nop.execute_nodispatch, Except.ok.injEq,
      Prod.mk.injEq] at h
    rw [← h.2]
  | stop =>
    simp only [stepInst, Stop.execute_nodispatch, Except.ok.injEq,
      Prod.mk.injEq] at h
    rw [← h.2]
  | push v =>
    simp only [stepInst, Push.execute_nodispatch, Except.ok.injEq,
      Prod.mk.injEq] at h
    rw [← h.2]
  | add =>
    cases st with
    | nil => simp [stepInst, Add.execute_nodispatch] at h
    | cons b t =>
      cases t with
      | nil => simp [stepInst, Add.execute_nodispatch] at h
      | cons a rest =>
        simp only [stepInst, Add.execute_nodispatch, Except.ok.injEq,
          Prod.mk.injEq] at h
        rw [← h.2]
  | mul =>
    cases st with
    | nil => simp [stepInst, Mul.execute_nodispatch] at h
    | cons b t =>
      cases t with
      | nil => simp [stepInst, Mul.execute_nodispatch] at h
      | cons a rest =>
        simp only [stepInst, Mul.execute_nodispatch, Except.ok.injEq,
          Prod.mk.injEq] at h
        rw [← h.2]
  | ifOp i =>
    cases st with
    | nil => simp [stepInst, If.execute_nodispatch] at h
    | cons c rest =>
      simp only [stepInst, If.execute_nodispatch, Except.ok.injEq,
        Prod.mk.injEq] at h
      rw [← h.2]

/-- A chained handler whose dispatch chain breaks returns a final context
with an unchanged code field. -/
theorem executeChained_code_eq (n : Nat) (op : OpcodeU) (ctx : VmContext)
    (e : Exit) (ctx' : VmContext)
    (h : executeChained (dispatchC n) op ctx = .halt e ctx') :
    ctx'.code = ctx.code := by
  obtain ⟨ip, cc, st⟩ := ctx
  cases op with
  | begin => exact (dispatchC_halt_inv n ⟨ip, cc, st⟩ e ctx' h).2
  | nop => exact (dispatchC_halt_inv n ⟨ip, cc, st⟩ e ctx' h).2
  | stop =>
    simp only [executeChained] at h
    injection h with h1 h2
    rw [← h2]
  | push v => exact (dispatchC_halt_inv n ⟨ip, cc, v :: st⟩ e ctx' h).2
  | add =>
    cases st with
    | nil => simp [executeChained] at h
    | cons b t =>
      cases t with
      | nil => simp [executeChained] at h
      | cons a rest =>
        exact (dispatchC_halt_inv n ⟨ip, cc, wrapping_add a b :: rest⟩
          e ctx' h).2
  | mul =>
    cases st with
    | nil => simp [executeChained] at h
    | cons b t =>
      cases t with
      | nil => simp [executeChained] at h
      | cons a rest =>
        exact (dispatchC_halt_inv n ⟨ip, cc, wrapping_mul a b :: rest⟩
          e ctx' h).2
  | ifOp i =>
    cases st with
    | nil => simp [executeChained] at h
    | cons c rest =>
      exact (dispatchC_halt_inv n
        ⟨if c = 0 then i.if_false else i.if_true, cc, rest⟩ e ctx' h).2

/-- C8: every handler execution leaves the context's code field unchanged —
a standalone handler returns a context with the same code, and a chained
handler chain that breaks returns a final context with the same code; the
context has only `ip`, `code` and `stack`, so only `ip` and `stack` can
differ, and the embedding is pure, so no state outside the context is
modified. -/
theorem handlers_preserve_code (i : Inst) (ctx : VmContext) (fl : CFlow)
    (ctx' : VmContext) (n : Nat) (op : OpcodeU) (ctx2 : VmContext)
    (e : Exit) (ctx2' : VmContext)
    (hstep : stepInst i ctx = .ok (fl, ctx'))
    (hchain : executeChained (dispatchC n) op ctx2 = .halt e ctx2') :
    ctx'.code = ctx.code ∧ ctx2'.code = ctx2.code :=
  ⟨stepInst_code_eq i ctx fl ctx' hstep,
    executeChained_code_eq n op ctx2 e ctx2' hchain⟩

/-- Witness for `handlers_preserve_code`: `Begin` standalone on a fresh
context, and the `Stop` chained handler. -/
theorem handlers_preserve_code_witness :
    (⟨0, [], []⟩ : VmContext).code = (⟨0, [], []⟩ : VmContext).code ∧
    (⟨0, [], []⟩ : VmContext).code = (⟨0, [], []⟩ : VmContext).code :=
  handlers_preserve_code .begin ⟨0, [], []⟩ .cont ⟨0, [], []⟩ 0 .stop
    ⟨0, [], []⟩ .stop ⟨0, [], []⟩ rfl rfl

/-- C4: `Add`/`Mul` on a stack of fewer than 2 values, and `If` on an empty
stack, fail the `assert!` with message "expected operand" (modelled as
`Except.error` for standalone handlers and `Outcome.assertFail` for chained
ones) rather than returning a typed `Exit` outcome; conversely, with
sufficient stack depth the assertion never fires and the handlers return
successfully (the subsequent unchecked pops succeed). -/
theorem insufficient_stack_asserts (ctx : VmContext)
    (d : VmContext → Outcome) (t f : Nat) :
    (ctx.stack.length < 2 →
      Add.execute_nodispatch ctx = .error "expected operand" ∧
      Mul.execute_nodispatch ctx = .error "expected operand" ∧
      executeChained d .add ctx = .assertFail "expected operand" ∧
      executeChained d .mul ctx = .assertFail "expected operand") ∧
    (ctx.stack = [] →
      If.execute_nodispatch ⟨t, f⟩ ctx = .error "expected operand" ∧
      executeChained d (.ifOp ⟨t, f⟩) ctx = .assertFail "expected operand") ∧
    (2 ≤ ctx.stack.length →
      (∃ r, Add.execute_nodispatch ctx = .ok r) ∧
      (∃ r, Mul.execute_nodispatch ctx = .ok r)) ∧
    (ctx.stack ≠ [] → ∃ r, If.execute_nodispatch ⟨t, f⟩ ctx = .ok r) := by
  obtain ⟨ip, cc, st⟩ := ctx
  match st with
  | [] =>
    refine ⟨fun _ => ⟨rfl, rfl, rfl, rfl⟩, fun _ => ⟨rfl, rfl⟩,
      fun h => ?_, fun h => ?_⟩
    · simp only [List.length_nil] at h
      omega
    · simp at h
  | [x] =>
    refine ⟨fun _ => ⟨rfl, rfl, rfl, rfl⟩, fun h => ?_, fun h => ?_,
      fun _ => ⟨_, rfl⟩⟩
    · simp at h
    · simp only [List.length_cons, List.length_nil] at h
      omega
  | x :: y :: rest =>
    refine ⟨fun h => ?_, fun h => ?_,
      fun _ => ⟨⟨_, rfl⟩, ⟨_, rfl⟩⟩, fun _ => ⟨_, rfl⟩⟩
    · simp only [List.length_cons] at h
      omega
    · simp at h

/-- Witness for `insufficient_stack_asserts`: `Add` asserts on an empty
stack and succeeds on a two-value stack. -/
theorem insufficient_stack_asserts_witness :
    Add.execute_nodispatch ⟨0, [], []⟩ = .error "expected operand" ∧
    ∃ r, Add.execute_nodispatch ⟨0, [], [5, 6]⟩ = .ok r :=
  ⟨((insufficient_stack_asserts ⟨0, [], []⟩ (fun _ => .oob) 0 0).1
      (by decide)).1,
    (((insufficient_stack_asserts ⟨0, [], [5, 6]⟩ (fun _ => .oob) 0 0).2.2.1)
      (by decide)).1⟩

/-- Equivalent instructions have identical standalone behavior: `Begin` and
`Nop` share their handler semantics. -/
theorem stepInst_congr_of_instEquiv (a b : Inst) (h : instEquiv a b)
    (ctx : VmContext) : stepInst a ctx = stepInst b ctx := by
  rcases h with h | ⟨ha, hb⟩
  · rw [h]
  · rcases ha with ha | ha <;> rcases hb with hb | hb <;>
      subst ha <;> subst hb <;> rfl

/-- Pointwise-related lists fetch related elements at every index. -/
theorem forall2_fetch {R : Inst → Inst → Prop} :
    ∀ {l1 l2 : List Inst}, List.Forall₂ R l1 l2 → ∀ i : Nat,
      (l1[i]? = none ∧ l2[i]? = none) ∨
      ∃ a b, l1[i]? = some a ∧ l2[i]? = some b ∧ R a b := by
  intro l1 l2 h
  induction h with
  | nil => intro i; exact Or.inl ⟨by simp, by simp⟩
  | cons hab htail ih =>
    intro i
    cases i with
    | zero => exact Or.inr ⟨_, _, by simp, by simp, hab⟩
    | succ j =>
      simp only [List.getElem?_cons_succ]
      exact ih j

/-- The switch loop is insensitive to replacing `Begin` by `Nop` (or vice
versa) anywhere in the program. -/
theorem switchLoop_congr (c1 c2 : List Inst)
    (h : List.Forall₂ instEquiv c1 c2) :
    ∀ (n : Nat) (ctx : VmContext), switchLoop c1 n ctx = switchLoop c2 n ctx := by
  intro n
  induction n with
  | zero => intro ctx; rfl
  | succ n ih =>
    intro ctx
    obtain ⟨ip, aux, st⟩ := ctx
    rw [switchLoop_succ, switchLoop_succ]
    rcases forall2_fetch h ip with ⟨h1, h2⟩ | ⟨a, b, h1, h2, hab⟩
    · rw [h1, h2]
    · simp only [h1, h2]
      rw [stepInst_congr_of_instEquiv a b hab]
      cases hs : stepInst b ⟨ip + 1, aux, st⟩ with
      | error msg => rfl
      | ok p =>
        obtain ⟨fl, ctx'⟩ := p
        cases fl with
        | brk e => rfl
        | cont => exact ih ctx'

/-- C9: `Begin` and `Nop` are interchangeable anywhere in a program (at any
index, not only index 0): if `c2` is `c1` with any occurrences of `Begin`
replaced by `Nop` or vice versa (`List.Forall₂ instEquiv c1 c2`), both
dispatch strategies give observably equal results — same terminal outcome,
same final `ip` and bit-identical final stack. -/
theorem begin_nop_interchangeable (c1 c2 : List Inst) (n : Nat)
    (h : List.Forall₂ instEquiv c1 c2) :
    (switch_based c1 n).proj = (switch_based c2 n).proj ∧
    (computed_goto (compileProgram c1) n).proj =
      (computed_goto (compileProgram c2) n).proj := by
  have hsw : switch_based c1 n = switch_based c2 n :=
    switchLoop_congr c1 c2 h n ⟨0, [], []⟩
  refine ⟨by rw [hsw], ?_⟩
  calc (computed_goto (compileProgram c1) n).proj
      = (switchLoop c1 n ⟨0, [], []⟩).proj := (loops_agree n c1 [] 0 []).symm
    _ = (switchLoop c2 n ⟨0, [], []⟩).proj := by
        rw [switchLoop_congr c1 c2 h n]
    _ = (computed_goto (compileProgram c2) n).proj := loops_agree n c2 [] 0 []

/-- Witness for `begin_nop_interchangeable`: swapping the leading `Begin`
of `[Begin, Stop]` for `Nop`. -/
theorem begin_nop_interchangeable_witness :
    (switch_based [.begin, .stop] 2).proj =
      (switch_based [.nop, .stop] 2).proj ∧
    (computed_goto (compileProgram [.begin, .stop]) 2).proj =
      (computed_goto (compileProgram [.nop, .stop]) 2).proj :=
  begin_nop_interchangeable [.begin, .stop] [.nop, .stop] 2
    (List.Forall₂.cons (Or.inr ⟨Or.inl rfl, Or.inr rfl⟩)
      (List.Forall₂.cons (Or.inl rfl) List.Forall₂.nil))
